import Mathlib

set_option maxRecDepth 8000

/-!
Verification of the hub-navigation application customizer
(src/HubNavigationApplicationCustomizer.ts): a SharePoint SPFx extension
that highlights the current site's link in the hub navigation bar.

Strings manipulated by the TypeScript code are modelled as `List Char`;
an element's classList (a DOM token list) as `List String`.
-/

/-- Model of JS String.prototype.toLowerCase, as in `url.toLowerCase()`. -/
def toLowerL (s : List Char) : List Char := s.map Char.toLower

/-- The site-path marker string '/sites/' used throughout the source. -/
def sitesSep : List Char := "/sites/".toList

/-- Fuel-indexed recursion for `jsSplit`; any fuel at least the length of
the input yields the JS behaviour (the fuel-out branch is unreachable). -/
def jsSplitGo (sep : List Char) : Nat → List Char → List (List Char)
  | _, [] => [[]]
  | 0, s => [s]
  | fuel+1, c :: rest =>
    if !sep.isEmpty && sep.isPrefixOf (c :: rest) then
      [] :: jsSplitGo sep fuel (List.drop sep.length (c :: rest))
    else
      match jsSplitGo sep fuel rest with
      | [] => [[c]]
      | x :: xs => (c :: x) :: xs

/-- Model of JS String.prototype.split with a nonempty string separator,
as called by `_extractSiteName`: `url.split('/sites/')` and
`match.split('/')`. Chunks between consecutive leftmost occurrences of
the separator, in order. -/
def jsSplit (sep s : List Char) : List (List Char) := jsSplitGo sep s.length s

/-- Embedding of `_extractSiteName` (source lines 178-186):
`const match = url.split('/sites/')[1]; return match ? match.split('/')[0] : '';`
Indexing `[1]` yields undefined (falsy) when the split has one chunk;
a nonempty chunk is truthy. The source's try/catch is dead in this pure
model since nothing in the body can throw. -/
def extractSiteName (url : List Char) : List Char :=
  match jsSplit sitesSep url with
  | _ :: m :: _ => if m.isEmpty then [] else (jsSplit ['/'] m).headD []
  | _ => []

/-- Does `sep` occur contiguously inside the list? Used to state the spec
claims, and as the model of `href.indexOf('/sites/') > -1` in
`_applyHighlighting`. -/
def containsSeq (sep : List Char) : List Char → Bool
  | [] => sep.isEmpty
  | c :: rest => sep.isPrefixOf (c :: rest) || containsSeq sep rest

/-- The suffix strictly after the first occurrence of `sep`
(empty when `sep` does not occur). -/
def afterFirst (sep : List Char) : List Char → List Char
  | [] => []
  | c :: rest =>
    if sep.isPrefixOf (c :: rest) then List.drop sep.length (c :: rest)
    else afterFirst sep rest

/-- The prefix strictly before the first occurrence of `sep`
(the whole list when `sep` does not occur). -/
def beforeFirst (sep : List Char) : List Char → List Char
  | [] => []
  | c :: rest =>
    if sep.isPrefixOf (c :: rest) then []
    else c :: beforeFirst sep rest

/-- Everything up to, not including, the next '/' character. -/
def takeUntilSlash : List Char → List Char
  | [] => []
  | c :: rest => if c = '/' then [] else c :: takeUntilSlash rest

/-- `extractSiteName` as the amended spec sentence describes it: the empty
string when '/sites/' does not occur literally in the URL, otherwise the
characters strictly between the first occurrence of '/sites/' and the
following '/' (or the end of the string). -/
def extractSiteNameSpec (url : List Char) : List Char :=
  if containsSeq sitesSep url then takeUntilSlash (afterFirst sitesSep url) else []

/-- The marker class the customizer adds to the current site's links. -/
def currentSiteClass : String := "hub-nav-current-site"

/-- The marker class the customizer adds to links of other sites. -/
def otherSiteClass : String := "hub-nav-other-site"

/-- Model of DOMTokenList.remove (`classList.remove(c)`): deletes the
token; a DOM token list never holds duplicates. -/
def classListRemove (classes : List String) (c : String) : List String :=
  classes.filter (fun x => x != c)

/-- Model of DOMTokenList.add (`classList.add(c)`): appends the token
unless already present. -/
def classListAdd (classes : List String) (c : String) : List String :=
  if c ∈ classes then classes else classes ++ [c]

/-- A candidate navigation link as `_applyHighlighting` sees it: the value
of `getAttribute('href')` (none when the attribute is absent) and its
class list. -/
structure NavLink where
  href : Option (List Char)
  classes : List String
deriving DecidableEq

/-- Per-link body of `_applyHighlighting` (source lines 152-169):
read the href (`|| ''` for a missing attribute), extract the linked site
name from the lower-cased href, remove both marker classes, then add the
current-site marker when the linked site name is truthy and equals the
current one, else the other-site marker when the raw href contains
'/sites/' (`href.indexOf('/sites/') > -1`), else add nothing. -/
def processLink (currentSiteName : List Char) (hrefAttr : Option (List Char))
    (classes : List String) : List String :=
  let href := hrefAttr.getD []
  let linkSiteName := extractSiteName (toLowerL href)
  let cls := classListRemove (classListRemove classes currentSiteClass) otherSiteClass
  if linkSiteName ≠ [] ∧ linkSiteName = currentSiteName then
    classListAdd cls currentSiteClass
  else if containsSeq sitesSep href = true then
    classListAdd cls otherSiteClass
  else
    cls

/-- Model of `.replace(/\/$/, '')`: drop a single trailing '/'. -/
def stripTrailingSlash (s : List Char) : List Char :=
  if s.getLast? = some '/' then s.dropLast else s

/-- Embedding of `_applyHighlighting` (source lines 143-173), acting on
the collection of candidate links returned by the selector query:
normalize the current URL (strip trailing slash, lower-case), extract the
current site name, return with no change when it is empty, otherwise
process every candidate link. -/
def applyHighlighting (currentUrl : List Char) (links : List NavLink) : List NavLink :=
  let currentSiteName := extractSiteName (toLowerL (stripTrailingSlash currentUrl))
  if currentSiteName = [] then links
  else links.map (fun l => { l with classes := processLink currentSiteName l.href l.classes })

/-- State of the mutation-observer throttle (source lines 195-212):
whether `_throttleTimer` is non-null, how many timers were ever scheduled,
and how many highlighting passes were ever started. -/
structure ThrottleState where
  throttleTimerPending : Bool
  timersScheduled : Nat
  highlightRuns : Nat
deriving DecidableEq

/-- The MutationObserver callback (source lines 195-211): when a timer is
already pending, return at once; otherwise schedule one timer. -/
def observerCallback (st : ThrottleState) : ThrottleState :=
  if st.throttleTimerPending then st
  else
    { st with
      throttleTimerPending := true
      timersScheduled := st.timersScheduled + 1 }

/-- The scheduled timer firing (source lines 200-208): run one
highlighting pass inside try/catch, and in the finally block clear
`_throttleTimer` — the clearing does not depend on whether the pass
threw. -/
def timerFire (st : ThrottleState) (passThrew : Bool) : ThrottleState :=
  let afterPass := { st with highlightRuns := st.highlightRuns + 1 }
  let _ := passThrew
  { afterPass with throttleTimerPending := false }

/-- The navigation-highlighting configuration (interface INavConfig,
imported from ./INavConfig). -/
structure INavConfig where
  currentSiteColor : String
  currentSiteFontWeight : String
  otherSiteColor : String
  otherSiteFontWeight : String
deriving DecidableEq

/-- The parsed override JSON: each field may be absent. -/
structure JsonConfig where
  currentSiteColor : Option String
  currentSiteFontWeight : Option String
  otherSiteColor : Option String
  otherSiteFontWeight : Option String
deriving DecidableEq

/-- JS truthiness of an optional string field: present and nonempty. -/
def isTruthy (v : Option String) : Bool :=
  match v with
  | some s => s != ""
  | none => false

/-- Model of `x || d` for an optional string field `x`. -/
def jsOrString (v : Option String) (d : String) : String :=
  match v with
  | some s => if s = "" then d else s
  | none => d

/-- The per-field merge in `_loadConfig` (source lines 88-93):
`json.f || DEFAULT_NAV_CONFIG.f` for each of the four fields.
`DEFAULT_NAV_CONFIG` is declared in ./INavConfig (not under src/), so the
defaults are passed in as a parameter. -/
def mergeConfig (dflt : INavConfig) (json : JsonConfig) : INavConfig :=
  { currentSiteColor := jsOrString json.currentSiteColor dflt.currentSiteColor
    currentSiteFontWeight := jsOrString json.currentSiteFontWeight dflt.currentSiteFontWeight
    otherSiteColor := jsOrString json.otherSiteColor dflt.otherSiteColor
    otherSiteFontWeight := jsOrString json.otherSiteFontWeight dflt.otherSiteFontWeight }

/-- Outcome of the config fetch: the network call threw, or an HTTP
response arrived with status `ok` and a body that parsed (`some json`) or
failed to parse (`none`). -/
inductive FetchResult where
  | networkError : FetchResult
  | response (ok : Bool) (parsed : Option JsonConfig) : FetchResult

/-- Embedding of `_loadConfig` (source lines 74-104): `current` is
`this._config` before the call, `dflt` is `DEFAULT_NAV_CONFIG`. A network
error is caught by the outer catch; a non-ok response only logs; a parse
failure is caught by the inner catch; only a successful parse assigns a
freshly merged configuration. The returned value is `this._config`
afterwards. -/
def loadConfig (current dflt : INavConfig) (r : FetchResult) : INavConfig :=
  match r with
  | FetchResult.networkError => current
  | FetchResult.response ok parsed =>
    if ok then
      match parsed with
      | some json => mergeConfig dflt json
      | none => current
    else current

/-- State for `_injectStyles`: the ids of style nodes created by this
customizer that currently sit in document.head, the `_styleElement` field
(the id of the owned node, if any), and a supply of fresh node ids. -/
structure StyleState where
  headStyles : List Nat
  styleElement : Option Nat
  nextId : Nat
deriving DecidableEq

/-- Embedding of `_injectStyles` (source lines 109-138): when
`_styleElement` is set, remove that node from the document first; then
create a fresh style node, append it to document.head and remember it in
`_styleElement`. -/
def injectStyles (st : StyleState) : StyleState :=
  let head1 :=
    match st.styleElement with
    | some i => st.headStyles.filter (fun j => j != i)
    | none => st.headStyles
  { headStyles := head1 ++ [st.nextId]
    styleElement := some st.nextId
    nextId := st.nextId + 1 }

/-- The customizer's state at construction: no style node injected. -/
def initialStyleState : StyleState := ⟨[], none, 0⟩

/-- Invariant tying `_styleElement` to the injected nodes in the head. -/
def styleInv (st : StyleState) : Prop :=
  st.headStyles =
    match st.styleElement with
    | some i => [i]
    | none => []

/-- State for `_observeDOM`: the `_observer` field (the attached
MutationObserver handle, if any) and how many observers were ever created
and attached. -/
structure ObserverState where
  observer : Option Nat
  observersCreated : Nat
deriving DecidableEq

/-- Embedding of `_observeDOM` (source lines 191-221): when `_observer`
is already set, return at once; otherwise create a MutationObserver,
store it and attach it to document.body. -/
def observeDOM (st : ObserverState) : ObserverState :=
  if st.observer.isSome then st
  else
    { observer := some st.observersCreated
      observersCreated := st.observersCreated + 1 }

/-- The customizer's state at construction: no observer attached. -/
def initialObserverState : ObserverState := ⟨none, 0⟩

/-- The five startup steps of `onInit` (source lines 39-69). -/
inductive StartStep where
  | loadConfigStep : StartStep
  | injectStylesStep : StartStep
  | firstPassStep : StartStep
  | subscribeNavEventStep : StartStep
  | observeDOMStep : StartStep
deriving DecidableEq

/-- Which startup steps fail internally, and whether the
`navigatedEvent.add` call itself throws. -/
structure StartFailures where
  loadConfigFails : Bool
  injectStylesFails : Bool
  firstPassFails : Bool
  subscribeThrows : Bool
  observeDOMFails : Bool

/-- A step whose body is wrapped in its own try/catch (as `_loadConfig`,
`_injectStyles`, `_applyHighlighting` and `_observeDOM` are in the
source): an internal failure is caught and logged, and the step returns
normally. -/
def guardedStep (fails : Bool) : Except Unit Unit :=
  match (if fails then Except.error () else Except.ok ()) with
  | Except.ok _ => Except.ok ()
  | Except.error _ => Except.ok ()

/-- Run one startup step. The `navigatedEvent.add` call is the only
statement of `onInit`'s try block with no guard of its own. -/
def stepRun (f : StartFailures) : StartStep → Except Unit Unit
  | StartStep.loadConfigStep => guardedStep f.loadConfigFails
  | StartStep.injectStylesStep => guardedStep f.injectStylesFails
  | StartStep.firstPassStep => guardedStep f.firstPassFails
  | StartStep.subscribeNavEventStep =>
    if f.subscribeThrows then Except.error () else Except.ok ()
  | StartStep.observeDOMStep => guardedStep f.observeDOMFails

/-- The source order of the startup steps (source lines 44-62). -/
def startupOrder : List StartStep :=
  [StartStep.loadConfigStep, StartStep.injectStylesStep, StartStep.firstPassStep,
   StartStep.subscribeNavEventStep, StartStep.observeDOMStep]

/-- Run steps in order inside one try block: a throw skips the remaining
steps and transfers control to the catch. Returns the steps that ran and
whether the catch handler was entered. -/
def runSteps (f : StartFailures) : List StartStep → List StartStep × Bool
  | [] => ([], false)
  | s :: rest =>
    match stepRun f s with
    | Except.ok _ =>
      let r := runSteps f rest
      (s :: r.1, r.2)
    | Except.error _ => ([s], true)

/-- Embedding of `onInit` (source lines 39-69): the five steps run inside
one try block whose catch only logs, and the method then resolves. The
payload records the steps that actually ran. -/
def onInit (f : StartFailures) : Except Unit (List StartStep) :=
  Except.ok (runSteps f startupOrder).1

/-- Extra fuel is irrelevant once the fuel covers the input length. -/
theorem jsSplitGo_fuel_succ (sep : List Char) :
    ∀ fuel s, s.length ≤ fuel → jsSplitGo sep (fuel + 1) s = jsSplitGo sep fuel s := by
  intro fuel
  induction fuel with
  | zero =>
    intro s hs
    have hnil : s = [] := List.length_eq_zero.mp (Nat.le_zero.mp hs)
    subst hnil
    rfl
  | succ f ih =>
    intro s hs
    match s with
    | [] => rfl
    | c :: rest =>
      have hr : rest.length ≤ f := by
        simp only [List.length_cons] at hs
        omega
      show jsSplitGo sep (f + 2) (c :: rest) = jsSplitGo sep (f + 1) (c :: rest)
      simp only [jsSplitGo]
      by_cases hguard : (!sep.isEmpty && sep.isPrefixOf (c :: rest)) = true
      · rw [if_pos hguard, if_pos hguard]
        have hsl : 1 ≤ sep.length := by
          rcases sep with _ | ⟨a, as⟩
          · simp at hguard
          · simp
        have hlen : (List.drop sep.length (c :: rest)).length ≤ f := by
          rw [List.length_drop]
          simp only [List.length_cons]
          omega
        rw [ih _ hlen]
      · rw [if_neg hguard, if_neg hguard, ih rest hr]

/-- Any sufficient fuel computes `jsSplit`. -/
theorem jsSplitGo_eq_jsSplit (sep : List Char) (fuel : Nat) (s : List Char)
    (h : s.length ≤ fuel) : jsSplitGo sep fuel s = jsSplit sep s := by
  obtain ⟨k, rfl⟩ := Nat.exists_eq_add_of_le h
  induction k with
  | zero => rfl
  | succ n ih =>
    have h1 : s.length ≤ s.length + n := Nat.le_add_right _ _
    have h2 := jsSplitGo_fuel_succ sep (s.length + n) s h1
    calc jsSplitGo sep (s.length + (n + 1)) s
        = jsSplitGo sep ((s.length + n) + 1) s := by rw [Nat.add_succ]
      _ = jsSplitGo sep (s.length + n) s := h2
      _ = jsSplit sep s := ih (Nat.le_add_right _ _)

/-- One-step unfolding of `jsSplit` on a cons cell. -/
theorem jsSplit_cons (sep : List Char) (hsep : sep ≠ []) (c : Char) (rest : List Char) :
    jsSplit sep (c :: rest) =
      if sep.isPrefixOf (c :: rest) then
        [] :: jsSplit sep (List.drop sep.length (c :: rest))
      else
        match jsSplit sep rest with
        | [] => [[c]]
        | x :: xs => (c :: x) :: xs := by
  have hne : sep.isEmpty = false := by
    simp [List.isEmpty_iff, hsep]
  show jsSplitGo sep (rest.length + 1) (c :: rest) = _
  simp only [jsSplitGo, hne, Bool.not_false, Bool.true_and]
  by_cases hp : sep.isPrefixOf (c :: rest) = true
  · rw [if_pos hp, if_pos hp]
    have hsl : 1 ≤ sep.length := by
      rcases sep with _ | ⟨a, as⟩
      · exact absurd rfl hsep
      · simp
    have hlen : (List.drop sep.length (c :: rest)).length ≤ rest.length := by
      rw [List.length_drop]
      simp only [List.length_cons]
      omega
    rw [jsSplitGo_eq_jsSplit sep rest.length _ hlen]
  · rw [if_neg hp, if_neg hp]
    rfl

/-- When the separator does not occur, the split is one single chunk. -/
theorem jsSplit_of_not_contains (sep : List Char) (hsep : sep ≠ []) :
    ∀ s, containsSeq sep s = false → jsSplit sep s = [s] := by
  intro s
  induction s with
  | nil => intro _; rfl
  | cons c rest ih =>
    intro h
    simp only [containsSeq, Bool.or_eq_false_iff] at h
    rw [jsSplit_cons sep hsep, if_neg (by simp [h.1]), ih h.2]

/-- When the separator does not occur, `beforeFirst` is the whole list. -/
theorem beforeFirst_of_not_contains (sep : List Char) :
    ∀ s, containsSeq sep s = false → beforeFirst sep s = s := by
  intro s
  induction s with
  | nil => intro _; rfl
  | cons c rest ih =>
    intro h
    simp only [containsSeq, Bool.or_eq_false_iff] at h
    simp only [beforeFirst]
    rw [if_neg (by simp [h.1]), ih h.2]

/-- When the separator occurs, the split is the chunk before the first
occurrence followed by the split of the suffix after it. -/
theorem jsSplit_of_contains (sep : List Char) (hsep : sep ≠ []) :
    ∀ s, containsSeq sep s = true →
      jsSplit sep s = beforeFirst sep s :: jsSplit sep (afterFirst sep s) := by
  intro s
  induction s with
  | nil =>
    intro h
    simp only [containsSeq, List.isEmpty_iff] at h
    exact absurd h hsep
  | cons c rest ih =>
    intro h
    rw [jsSplit_cons sep hsep]
    by_cases hp : sep.isPrefixOf (c :: rest) = true
    · rw [if_pos hp]
      simp only [beforeFirst, afterFirst, if_pos hp]
    · rw [if_neg hp]
      have hrest : containsSeq sep rest = true := by
        simp only [containsSeq, Bool.or_eq_true_iff] at h
        rcases h with h | h
        · exact absurd h hp
        · exact h
      rw [ih hrest]
      simp only [beforeFirst, afterFirst, if_neg hp]

/-- The first chunk of a split is the prefix before the first occurrence. -/
theorem jsSplit_headD (sep : List Char) (hsep : sep ≠ []) (s : List Char) :
    (jsSplit sep s).headD [] = beforeFirst sep s := by
  by_cases h : containsSeq sep s = true
  · rw [jsSplit_of_contains sep hsep s h]
    rfl
  · have h' : containsSeq sep s = false := by simpa using h
    rw [jsSplit_of_not_contains sep hsep s h', beforeFirst_of_not_contains sep s h']
    rfl

/-- A split never produces the empty list of chunks. -/
theorem jsSplit_ne_nil (sep : List Char) (hsep : sep ≠ []) (s : List Char) :
    jsSplit sep s ≠ [] := by
  by_cases h : containsSeq sep s = true
  · rw [jsSplit_of_contains sep hsep s h]
    simp
  · rw [jsSplit_of_not_contains sep hsep s (by simpa using h)]
    simp

/-- `takeUntilSlash` is `beforeFirst` for the one-character separator '/'. -/
theorem takeUntilSlash_eq_beforeFirst :
    ∀ s, takeUntilSlash s = beforeFirst ['/'] s := by
  intro s
  induction s with
  | nil => rfl
  | cons c rest ih =>
    simp only [takeUntilSlash, beforeFirst]
    have hpre : (List.isPrefixOf ['/'] (c :: rest)) = ('/' == c) := by
      simp [List.isPrefixOf]
    by_cases hc : c = '/'
    · subst hc
      simp [hpre]
    · rw [if_neg hc, if_neg (by simp [hpre, Ne.symm hc]), ih]

/-- Cutting at the first '/' commutes with first cutting at a separator
that itself begins with '/'. -/
theorem beforeFirst_slash_beforeFirst (sep' : List Char) :
    ∀ t, beforeFirst ['/'] (beforeFirst ('/' :: sep') t) = beforeFirst ['/'] t := by
  intro t
  induction t with
  | nil => rfl
  | cons c rest ih =>
    have hpre1 : (List.isPrefixOf ['/'] (c :: rest)) = ('/' == c) := by
      simp [List.isPrefixOf]
    by_cases hp : ('/' :: sep').isPrefixOf (c :: rest) = true
    · have hc : c = '/' := by
        simp only [List.isPrefixOf, Bool.and_eq_true, beq_iff_eq] at hp
        exact hp.1.symm
      simp only [beforeFirst, if_pos hp]
      subst hc
      simp [hpre1]
    · simp only [beforeFirst, if_neg hp]
      by_cases hc : c = '/'
      · subst hc
        simp only [beforeFirst, hpre1]
        simp
      · simp only [beforeFirst, hpre1]
        rw [if_neg (by simp [Ne.symm hc]), if_neg (by simp [Ne.symm hc]), ih]

/-- `_extractSiteName` computes exactly the first-occurrence description:
empty when '/sites/' does not occur literally, else the characters
between the first '/sites/' and the next '/'. -/
theorem extractSiteName_characterization (url : List Char) :
    extractSiteName url = extractSiteNameSpec url := by
  have hsep : sitesSep ≠ [] := by decide
  by_cases h : containsSeq sitesSep url = true
  · unfold extractSiteName extractSiteNameSpec
    rw [if_pos h, jsSplit_of_contains sitesSep hsep url h]
    rcases h2 : jsSplit sitesSep (afterFirst sitesSep url) with _ | ⟨m, tail⟩
    · exact absurd h2 (jsSplit_ne_nil sitesSep hsep (afterFirst sitesSep url))
    · have hm : m = beforeFirst sitesSep (afterFirst sitesSep url) := by
        have hh := jsSplit_headD sitesSep hsep (afterFirst sitesSep url)
        rw [h2] at hh
        simpa using hh
      have hkey : beforeFirst ['/'] m = beforeFirst ['/'] (afterFirst sitesSep url) := by
        rw [hm]
        have hss : sitesSep = '/' :: "sites/".toList := by decide
        rw [hss]
        exact beforeFirst_slash_beforeFirst _ (afterFirst sitesSep url)
      rw [takeUntilSlash_eq_beforeFirst, ← hkey]
      by_cases hme : m.isEmpty = true
      · have hm0 : m = [] := List.isEmpty_iff.mp hme
        simp only [hme, if_pos]
        rw [hm0]
        rfl
      · simp only [hme]
        rw [if_neg (by simp [hme]), jsSplit_headD ['/'] (by decide) m]
  · have h' : containsSeq sitesSep url = false := by simpa using h
    unfold extractSiteName extractSiteNameSpec
    rw [jsSplit_of_not_contains sitesSep hsep url h', if_neg (by simp [h'])]

/-- C1 counterexample. The claim asserts the extraction matches the
'/sites/' segment case-insensitively and returns the path segment
regardless of a query string. The code is case-sensitive — on the URL
"https://contoso.com/SITES/int-team/pages/x.aspx" it returns "" although
the lower-cased URL yields "int-team" — and it keeps a query string that
follows the segment with no intervening '/'. -/
theorem extractSiteName_claim_counterexample :
    extractSiteName ("https://contoso.com/SITES/int-team/pages/x.aspx".toList) = [] ∧
    extractSiteName (toLowerL ("https://contoso.com/SITES/int-team/pages/x.aspx".toList))
      = "int-team".toList ∧
    extractSiteName ("https://contoso.com/sites/int-team?tab=home".toList)
      = "int-team?tab=home".toList := by
  refine ⟨by decide, by decide, by decide⟩

/-- C1 (amended): for every URL string `u`, `extractSiteName u` returns
"" when `u` has no literal occurrence of '/sites/'; otherwise it returns
the substring strictly between the end of the first occurrence of
'/sites/' and the next '/' (or the end of the string) — matching
case-sensitively, so callers must lower-case first, and without treating
a query string specially. In particular the two spec examples hold. -/
theorem extractSiteName_spec_equiv :
    (∀ url, extractSiteName url = extractSiteNameSpec url) ∧
    extractSiteName ("https://contoso.com/sites/int-team/pages/x.aspx".toList)
      = "int-team".toList ∧
    extractSiteName ("https://contoso.com/teamsite".toList) = [] :=
  ⟨extractSiteName_characterization, by decide, by decide⟩

/-- Membership after DOMTokenList.remove. -/
theorem mem_classListRemove (a c : String) (l : List String) :
    a ∈ classListRemove l c ↔ a ∈ l ∧ a ≠ c := by
  simp [classListRemove, List.mem_filter]

/-- Membership after DOMTokenList.add. -/
theorem mem_classListAdd (a c : String) (l : List String) :
    a ∈ classListAdd l c ↔ a ∈ l ∨ a = c := by
  unfold classListAdd
  by_cases h : c ∈ l
  · rw [if_pos h]
    constructor
    · exact Or.inl
    · rintro (h1 | rfl)
      · exact h1
      · exact h
  · rw [if_neg h]
    simp

/-- The two marker classes are distinct tokens. -/
theorem currentSiteClass_ne_otherSiteClass : currentSiteClass ≠ otherSiteClass := by
  decide

/-- C2: with a non-empty current site name, after one highlighting pass a
candidate link carries the current-site marker iff the site name
extracted from its lower-cased href is non-empty and equals the current
one; otherwise it carries the other-site marker iff its raw href contains
'/sites/'; and it never carries both markers. -/
theorem processLink_classification (currentSiteName : List Char)
    (_hs : currentSiteName ≠ []) (hrefAttr : Option (List Char))
    (classes : List String) :
    (currentSiteClass ∈ processLink currentSiteName hrefAttr classes ↔
      (extractSiteName (toLowerL (hrefAttr.getD [])) ≠ [] ∧
       extractSiteName (toLowerL (hrefAttr.getD [])) = currentSiteName)) ∧
    (¬(extractSiteName (toLowerL (hrefAttr.getD [])) ≠ [] ∧
       extractSiteName (toLowerL (hrefAttr.getD [])) = currentSiteName) →
      (otherSiteClass ∈ processLink currentSiteName hrefAttr classes ↔
        containsSeq sitesSep (hrefAttr.getD []) = true)) ∧
    ¬(currentSiteClass ∈ processLink currentSiteName hrefAttr classes ∧
      otherSiteClass ∈ processLink currentSiteName hrefAttr classes) := by
  have hne := currentSiteClass_ne_otherSiteClass
  unfold processLink
  by_cases hP : (extractSiteName (toLowerL (hrefAttr.getD [])) ≠ [] ∧
      extractSiteName (toLowerL (hrefAttr.getD [])) = currentSiteName)
  · rw [if_pos hP]
    refine ⟨?_, ?_, ?_⟩
    · simp only [mem_classListAdd, mem_classListRemove]
      tauto
    · intro hcon
      exact absurd hP hcon
    · simp only [mem_classListAdd, mem_classListRemove]
      intro hcontr
      rcases hcontr.2 with ⟨_, hoth⟩ | heq
      · exact hoth rfl
      · exact hne heq.symm
  · rw [if_neg hP]
    by_cases hQ : containsSeq sitesSep (hrefAttr.getD []) = true
    · rw [if_pos hQ]
      refine ⟨?_, ?_, ?_⟩
      · simp only [mem_classListAdd, mem_classListRemove]
        constructor
        · intro hmem
          rcases hmem with ⟨⟨_, hcur⟩, _⟩ | heq
          · exact absurd rfl hcur
          · exact absurd heq hne
        · intro hcond
          exact absurd hcond hP
      · intro _
        simp only [mem_classListAdd, mem_classListRemove]
        constructor
        · intro _
          exact hQ
        · intro _
          exact Or.inr trivial
      · simp only [mem_classListAdd, mem_classListRemove]
        intro hcontr
        rcases hcontr.1 with ⟨⟨_, hcur⟩, _⟩ | heq
        · exact hcur rfl
        · exact hne heq
    · rw [if_neg hQ]
      refine ⟨?_, ?_, ?_⟩
      · simp only [mem_classListRemove]
        constructor
        · intro hmem
          exact absurd rfl hmem.1.2
        · intro hcond
          exact absurd hcond hP
      · intro _
        simp only [mem_classListRemove]
        constructor
        · intro hmem
          exact absurd rfl hmem.2
        · intro hcond
          exact absurd hcond hQ
      · simp only [mem_classListRemove]
        intro hcontr
        exact hcontr.1.1.2 rfl

/-- C2 witness: the link to /sites/int is marked current for current site
"int", and the classification facts hold on that concrete input. -/
theorem processLink_classification_witness :
    currentSiteClass ∈ processLink ("int".toList)
      (some ("https://contoso.com/sites/int/pages/home.aspx".toList)) [] :=
  ((processLink_classification ("int".toList) (by decide)
      (some ("https://contoso.com/sites/int/pages/home.aspx".toList)) []).1).mpr
    (by decide)

/-- DOMTokenList.remove distributes over append. -/
theorem classListRemove_append (l₁ l₂ : List String) (c : String) :
    classListRemove (l₁ ++ l₂) c = classListRemove l₁ c ++ classListRemove l₂ c := by
  simp [classListRemove]

/-- Removing a token starting at an occurrence of itself. -/
theorem classListRemove_cons_self (l : List String) (c : String) :
    classListRemove (c :: l) c = classListRemove l c := by
  simp [classListRemove]

/-- Removing a token keeps a different head. -/
theorem classListRemove_cons_ne (x : String) (l : List String) (c : String)
    (h : x ≠ c) : classListRemove (x :: l) c = x :: classListRemove l c := by
  simp [classListRemove, h]

/-- Removing both markers is idempotent. -/
theorem stripMarkers_idem (cls : List String) :
    classListRemove (classListRemove
        (classListRemove (classListRemove cls currentSiteClass) otherSiteClass)
        currentSiteClass) otherSiteClass =
      classListRemove (classListRemove cls currentSiteClass) otherSiteClass := by
  induction cls with
  | nil => rfl
  | cons x xs ih =>
    by_cases h1 : x = currentSiteClass
    · subst h1
      rw [classListRemove_cons_self]
      exact ih
    · by_cases h2 : x = otherSiteClass
      · subst h2
        rw [classListRemove_cons_ne _ _ _ h1, classListRemove_cons_self]
        exact ih
      · rw [classListRemove_cons_ne _ _ _ h1, classListRemove_cons_ne _ _ _ h2,
          classListRemove_cons_ne _ _ _ h1, classListRemove_cons_ne _ _ _ h2, ih]

/-- Adding the current-site marker on a stripped list and stripping again
gives the stripped list back. -/
theorem stripMarkers_add_current (cls : List String) :
    classListRemove (classListRemove
        (classListAdd (classListRemove (classListRemove cls currentSiteClass)
          otherSiteClass) currentSiteClass) currentSiteClass) otherSiteClass =
      classListRemove (classListRemove cls currentSiteClass) otherSiteClass := by
  unfold classListAdd
  by_cases hmem : currentSiteClass ∈
      classListRemove (classListRemove cls currentSiteClass) otherSiteClass
  · rw [if_pos hmem]
    exact stripMarkers_idem cls
  · rw [if_neg hmem, classListRemove_append, classListRemove_append]
    have h1 : classListRemove (classListRemove [currentSiteClass] currentSiteClass)
        otherSiteClass = [] := by decide
    rw [h1, List.append_nil]
    exact stripMarkers_idem cls

/-- Adding the other-site marker on a stripped list and stripping again
gives the stripped list back. -/
theorem stripMarkers_add_other (cls : List String) :
    classListRemove (classListRemove
        (classListAdd (classListRemove (classListRemove cls currentSiteClass)
          otherSiteClass) otherSiteClass) currentSiteClass) otherSiteClass =
      classListRemove (classListRemove cls currentSiteClass) otherSiteClass := by
  unfold classListAdd
  by_cases hmem : otherSiteClass ∈
      classListRemove (classListRemove cls currentSiteClass) otherSiteClass
  · rw [if_pos hmem]
    exact stripMarkers_idem cls
  · rw [if_neg hmem, classListRemove_append, classListRemove_append]
    have h1 : classListRemove (classListRemove [otherSiteClass] currentSiteClass)
        otherSiteClass = [] := by decide
    rw [h1, List.append_nil]
    exact stripMarkers_idem cls

/-- The per-link body of the highlighting pass is idempotent. -/
theorem processLink_idem (s : List Char) (h : Option (List Char)) (cls : List String) :
    processLink s h (processLink s h cls) = processLink s h cls := by
  simp only [processLink]
  by_cases hP : (extractSiteName (toLowerL (h.getD [])) ≠ [] ∧
      extractSiteName (toLowerL (h.getD [])) = s)
  · rw [if_pos hP, if_pos hP, stripMarkers_add_current]
  · rw [if_neg hP, if_neg hP]
    by_cases hQ : containsSeq sitesSep (h.getD []) = true
    · rw [if_pos hQ, if_pos hQ, stripMarkers_add_other]
    · rw [if_neg hQ, if_neg hQ, stripMarkers_idem]

/-- C3: the highlighting pass is idempotent — on a fixed link collection
and current URL, two consecutive passes leave exactly the marker-class
state one pass leaves. -/
theorem applyHighlighting_idempotent (currentUrl : List Char) (links : List NavLink) :
    applyHighlighting currentUrl (applyHighlighting currentUrl links) =
      applyHighlighting currentUrl links := by
  simp only [applyHighlighting]
  by_cases h : extractSiteName (toLowerL (stripTrailingSlash currentUrl)) = []
  · rw [if_pos h, if_pos h]
  · rw [if_neg h, if_neg h, List.map_map]
    apply List.map_congr_left
    intro l _
    cases l with
    | mk href classes =>
      simp only [Function.comp_apply]
      rw [processLink_idem]

/-- C8: when the site name extracted from the normalized current URL is
empty, the pass aborts and leaves every link, markers included,
unchanged. -/
theorem applyHighlighting_no_site_frame (currentUrl : List Char) (links : List NavLink)
    (h : extractSiteName (toLowerL (stripTrailingSlash currentUrl)) = []) :
    applyHighlighting currentUrl links = links := by
  simp only [applyHighlighting]
  rw [if_pos h]

/-- C8 witness: on a URL with no site segment, a link already carrying the
other-site marker keeps it, and nothing is added anywhere. -/
theorem applyHighlighting_no_site_frame_witness :
    extractSiteName (toLowerL (stripTrailingSlash ("https://contoso.com/teamsite".toList))) = [] ∧
    applyHighlighting ("https://contoso.com/teamsite".toList)
        [NavLink.mk (some ("/sites/other".toList)) [otherSiteClass]]
      = [NavLink.mk (some ("/sites/other".toList)) [otherSiteClass]] :=
  ⟨by decide, applyHighlighting_no_site_frame _ _ (by decide)⟩

/-- A mutation batch arriving while a timer is pending is a no-op. -/
theorem observerCallback_pending (st : ThrottleState)
    (h : st.throttleTimerPending = true) : observerCallback st = st := by
  simp [observerCallback, h]

/-- Iterated mutation batches on a pending-timer state stay a no-op. -/
theorem observerCallback_iterate_pending :
    ∀ (k : Nat) (st : ThrottleState), st.throttleTimerPending = true →
      observerCallback^[k] st = st := by
  intro k
  induction k with
  | zero => intro st _; rfl
  | succ n ih =>
    intro st h
    rw [Function.iterate_succ_apply, observerCallback_pending st h, ih st h]

/-- C4: from an idle state, N ≥ 1 mutation batches inside one throttle
window schedule exactly one timer, start no pass, and leave the timer
pending; when the timer fires, exactly one pass starts and the
pending-timer marker is cleared, whether or not the pass threw. -/
theorem throttle_coalescing (st : ThrottleState) (N : Nat) (passThrew : Bool)
    (hidle : st.throttleTimerPending = false) (hN : 1 ≤ N) :
    (observerCallback^[N] st).timersScheduled = st.timersScheduled + 1 ∧
    (observerCallback^[N] st).throttleTimerPending = true ∧
    (observerCallback^[N] st).highlightRuns = st.highlightRuns ∧
    (timerFire (observerCallback^[N] st) passThrew).highlightRuns = st.highlightRuns + 1 ∧
    (timerFire (observerCallback^[N] st) passThrew).throttleTimerPending = false := by
  obtain ⟨k, rfl⟩ : ∃ k, N = k + 1 := ⟨N - 1, by omega⟩
  have hcb : observerCallback st =
      { st with
        throttleTimerPending := true
        timersScheduled := st.timersScheduled + 1 } := by
    simp [observerCallback, hidle]
  rw [Function.iterate_succ_apply, hcb, observerCallback_iterate_pending k _ rfl]
  exact ⟨rfl, rfl, rfl, rfl, rfl⟩

/-- C4 witness: three mutation batches from the idle start state yield one
scheduled timer and, on firing (with the pass throwing), one run. -/
theorem throttle_coalescing_witness :
    (observerCallback^[3] ⟨false, 0, 0⟩).timersScheduled = 0 + 1 ∧
    (observerCallback^[3] ⟨false, 0, 0⟩).throttleTimerPending = true ∧
    (observerCallback^[3] ⟨false, 0, 0⟩).highlightRuns = 0 ∧
    (timerFire (observerCallback^[3] ⟨false, 0, 0⟩) true).highlightRuns = 0 + 1 ∧
    (timerFire (observerCallback^[3] ⟨false, 0, 0⟩) true).throttleTimerPending = false :=
  throttle_coalescing ⟨false, 0, 0⟩ 3 true rfl (by decide)

/-- Truthy-or-default equals the spec's per-field description. -/
theorem jsOrString_eq (v : Option String) (d : String) :
    jsOrString v d = if isTruthy v then v.getD "" else d := by
  cases v with
  | none => rfl
  | some s =>
    by_cases h : s = ""
    · simp [jsOrString, isTruthy, h]
    · simp [jsOrString, isTruthy, h]

/-- C5: the configuration merge is per-field — each field comes from the
JSON when truthy there, else from the built-in default; in particular an
override carrying only currentSiteColor changes just that field. -/
theorem mergeConfig_per_field (dflt : INavConfig) (json : JsonConfig) :
    ((mergeConfig dflt json).currentSiteColor =
      if isTruthy json.currentSiteColor then json.currentSiteColor.getD ""
      else dflt.currentSiteColor) ∧
    ((mergeConfig dflt json).currentSiteFontWeight =
      if isTruthy json.currentSiteFontWeight then json.currentSiteFontWeight.getD ""
      else dflt.currentSiteFontWeight) ∧
    ((mergeConfig dflt json).otherSiteColor =
      if isTruthy json.otherSiteColor then json.otherSiteColor.getD ""
      else dflt.otherSiteColor) ∧
    ((mergeConfig dflt json).otherSiteFontWeight =
      if isTruthy json.otherSiteFontWeight then json.otherSiteFontWeight.getD ""
      else dflt.otherSiteFontWeight) ∧
    (∀ c, c ≠ "" →
      mergeConfig dflt ⟨some c, none, none, none⟩ =
        INavConfig.mk c dflt.currentSiteFontWeight dflt.otherSiteColor
          dflt.otherSiteFontWeight) := by
  refine ⟨jsOrString_eq _ _, jsOrString_eq _ _, jsOrString_eq _ _, jsOrString_eq _ _, ?_⟩
  intro c hc
  simp [mergeConfig, jsOrString, hc]

/-- C5 witness: an override with only currentSiteColor set yields that
color and leaves the three other fields at the defaults. -/
theorem mergeConfig_per_field_witness :
    mergeConfig ⟨"#0078d4", "600", "#323130", "400"⟩
        ⟨some ("#ff0000"), none, none, none⟩ =
      INavConfig.mk "#ff0000" "600" "#323130" "400" :=
  (mergeConfig_per_field ⟨"#0078d4", "600", "#323130", "400"⟩
      ⟨some ("#ff0000"), none, none, none⟩).2.2.2.2 ("#ff0000") (by decide)

/-- C6: the configuration load is atomic on failure — a network error, a
non-ok HTTP status (whatever the body), or a JSON parse failure leaves
the stored configuration exactly as it was before the call. -/
theorem loadConfig_atomic_on_failure (current dflt : INavConfig) :
    loadConfig current dflt FetchResult.networkError = current ∧
    (∀ parsed, loadConfig current dflt (FetchResult.response false parsed) = current) ∧
    loadConfig current dflt (FetchResult.response true none) = current :=
  ⟨rfl, fun _ => rfl, rfl⟩

/-- The style-node invariant holds initially. -/
theorem styleInv_initial : styleInv initialStyleState := rfl

/-- The style-node invariant is preserved by `_injectStyles`. -/
theorem styleInv_inject (st : StyleState) (h : styleInv st) :
    styleInv (injectStyles st) := by
  unfold styleInv at h ⊢
  unfold injectStyles
  cases hse : st.styleElement with
  | none =>
    rw [hse] at h
    simp [hse, h]
  | some i =>
    rw [hse] at h
    simp [hse, h]

/-- The style-node invariant holds along every trajectory from start. -/
theorem styleInv_iterate : ∀ n, styleInv (injectStyles^[n] initialStyleState) := by
  intro n
  induction n with
  | zero => exact styleInv_initial
  | succ k ih =>
    rw [Function.iterate_succ_apply']
    exact styleInv_inject _ ih

/-- C7: the injected style node is a singleton — after any number of
`_injectStyles` calls at most one node exists, and after at least one
call exactly one exists. -/
theorem injectStyles_singleton :
    (∀ n, (injectStyles^[n] initialStyleState).headStyles.length ≤ 1) ∧
    (∀ n, 1 ≤ n → (injectStyles^[n] initialStyleState).headStyles.length = 1) := by
  constructor
  · intro n
    have h := styleInv_iterate n
    unfold styleInv at h
    cases hse : (injectStyles^[n] initialStyleState).styleElement with
    | none =>
      rw [hse] at h
      simp [h]
    | some i =>
      rw [hse] at h
      simp [h]
  · intro n hn
    obtain ⟨k, rfl⟩ : ∃ k, n = k + 1 := ⟨n - 1, by omega⟩
    have h := styleInv_iterate (k + 1)
    rw [Function.iterate_succ_apply'] at h ⊢
    unfold styleInv at h
    have hsome : (injectStyles (injectStyles^[k] initialStyleState)).styleElement =
        some (injectStyles^[k] initialStyleState).nextId := rfl
    rw [hsome] at h
    rw [h]
    rfl

/-- C7 witness: after two injections exactly one style node is present. -/
theorem injectStyles_singleton_witness :
    (injectStyles^[2] initialStyleState).headStyles.length = 1 :=
  injectStyles_singleton.2 2 (by decide)

/-- C10: `_observeDOM` is a no-op once an observer exists, and along any
number of startup repetitions at most one observer is ever created. -/
theorem observeDOM_single :
    (∀ st : ObserverState, st.observer.isSome = true → observeDOM st = st) ∧
    (∀ n, (observeDOM^[n] initialObserverState).observersCreated ≤ 1) := by
  constructor
  · intro st h
    simp [observeDOM, h]
  · intro n
    cases n with
    | zero => decide
    | succ k =>
      have hstep : ∀ m, observeDOM^[m] (observeDOM initialObserverState) =
          observeDOM initialObserverState := by
        intro m
        induction m with
        | zero => rfl
        | succ j ih =>
          rw [Function.iterate_succ_apply', ih]
          decide
      rw [Function.iterate_succ_apply, hstep k]
      decide

/-- C10 witness: calling `_observeDOM` with an observer already attached
changes nothing. -/
theorem observeDOM_single_witness :
    observeDOM ⟨some 0, 1⟩ = ⟨some 0, 1⟩ :=
  observeDOM_single.1 ⟨some 0, 1⟩ rfl

/-- A self-guarded step always returns normally. -/
theorem guardedStep_ok (fails : Bool) : guardedStep fails = Except.ok () := by
  cases fails <;> rfl

/-- C9 counterexample: with only the navigatedEvent subscription throwing,
the startup runs the first four steps but never attaches the DOM
observer — a failure in one startup step does prevent a later step. -/
theorem onInit_counterexample :
    StartStep.observeDOMStep ∉ (runSteps ⟨false, false, false, true, false⟩ startupOrder).1 ∧
    (runSteps ⟨false, false, false, true, false⟩ startupOrder).1 =
      [StartStep.loadConfigStep, StartStep.injectStylesStep, StartStep.firstPassStep,
       StartStep.subscribeNavEventStep] := by
  refine ⟨by decide, by decide⟩

/-- C9 (amended): `onInit` always resolves and never propagates an
exception; internal failures of config load, style injection, the first
pass, and observer attachment are caught inside those steps, so all five
steps run whenever the event-subscription call itself does not throw; if
that call throws, the outer catch swallows it and only the observer
attachment is skipped. -/
theorem onInit_resilient (f : StartFailures) :
    (∃ ran, onInit f = Except.ok ran) ∧
    (f.subscribeThrows = false → (runSteps f startupOrder).1 = startupOrder) ∧
    (f.subscribeThrows = true → (runSteps f startupOrder).1 =
      [StartStep.loadConfigStep, StartStep.injectStylesStep, StartStep.firstPassStep,
       StartStep.subscribeNavEventStep]) := by
  refine ⟨⟨(runSteps f startupOrder).1, rfl⟩, ?_, ?_⟩
  · intro h
    simp [startupOrder, runSteps, stepRun, guardedStep_ok, h]
  · intro h
    simp [startupOrder, runSteps, stepRun, guardedStep_ok, h]

/-- C9 witness: with every self-guarded step failing internally but the
subscription not throwing, all five startup steps still run. -/
theorem onInit_resilient_witness :
    (runSteps ⟨true, true, true, false, true⟩ startupOrder).1 = startupOrder :=
  (onInit_resilient ⟨true, true, true, false, true⟩).2.1 rfl
